import Mathlib

/-!
Shallow embedding of `src/civitAI_downloader.py` (the hardened script that the
specification models) and proofs about it.  Pure helpers (`sanitize_filename`,
`destination_folder`, the `os.path` fragments they use, the input-list parser)
are translated as Lean functions on `List Char` / `String`; the effectful
worker `download_one` and the retry loop of `main` are translated as explicit
state passing over a small filesystem/network `World`, with the behaviour of
one HTTP transfer supplied by an `Env` oracle; the thread-local `get_session`
is translated as explicit passing of the per-thread storage.
-/

set_option maxRecDepth 8192
set_option linter.unusedVariables false

namespace Civit

/-! ## `os.path` fragments used by the script (POSIX semantics) -/

/-- `os.path.basename`: everything after the last `'/'` (the whole string when
there is no `'/'`). -/
def basenameList (l : List Char) : List Char :=
  (l.reverse.takeWhile (fun c => c != '/')).reverse

/-- Python's `".." in s`: some two adjacent characters are both dots. -/
def hasDotDot : List Char → Bool
  | [] => false
  | [_] => false
  | a :: b :: rest => (a == '.' && b == '.') || hasDotDot (b :: rest)

/-- `str.rfind(c)`: index of the last occurrence of `c`, `-1` when absent. -/
def rfindIdx (c : Char) (l : List Char) : Int :=
  match l.reverse.findIdx? (fun x => x == c) with
  | none => -1
  | some j => (l.length : Int) - 1 - (j : Int)

/-- `os.path.splitext` (POSIX `posixpath._splitext` with `sep='/'`,
`extsep='.'`): split at the last dot when it lies after the last slash and at
least one non-dot character of the basename precedes it; otherwise the
extension is empty. -/
def splitextList (p : List Char) : List Char × List Char :=
  let sepIndex := rfindIdx '/' p
  let dotIndex := rfindIdx '.' p
  if sepIndex < dotIndex then
    let d := dotIndex.toNat
    let fi := (sepIndex + 1).toNat
    if ((p.drop fi).take (d - fi)).any (fun c => c != '.') then
      (p.take d, p.drop d)
    else (p, [])
  else (p, [])

/-- `str.lower()` (the extensions compared against are ASCII, where
`Char.toLower` agrees with Python's case mapping). -/
def lowerList (l : List Char) : List Char := l.map Char.toLower

/-! ## `sanitize_filename` (lines 27-41) -/

/-- The character class of the regex
`[<>:"/\\|?*\x00-\x1f\x7f-\x9f]` in `sanitize_filename`. -/
def forbiddenChar (c : Char) : Bool :=
  c = '<' || c = '>' || c = ':' || c = '"' || c = '/' || c = '\\' ||
  c = '|' || c = '?' || c = '*' || c.toNat ≤ 0x1f ||
  (0x7f ≤ c.toNat && c.toNat ≤ 0x9f)

/-- `re.sub(..., "_", ...)` acts character-wise: a forbidden character becomes
`'_'`, anything else is kept. -/
def replChar (c : Char) : Char := if forbiddenChar c then '_' else c

/-- The strip class of `name.strip(". ")`. -/
def isStripChar (c : Char) : Bool := c = '.' || c = ' '

def lstripBy (p : Char → Bool) (l : List Char) : List Char := l.dropWhile p

def rstripBy (p : Char → Bool) (l : List Char) : List Char :=
  (l.reverse.dropWhile p).reverse

/-- `str.strip(chars)`: drop the characters of the class from both ends. -/
def stripBy (p : Char → Bool) (l : List Char) : List Char :=
  rstripBy p (lstripBy p l)

/-- `sanitize_filename` on the character list: basename, reject `..`,
replace forbidden characters, strip `". "`, reject empty.  `none` stands for
the `ValueError` raises. -/
def sanitizeList (l : List Char) : Option (List Char) :=
  let b := basenameList l
  if hasDotDot b then none
  else
    let t := stripBy isStripChar (b.map replChar)
    if t = [] then none else some t

def sanitize_filename (s : String) : Option String :=
  (sanitizeList s.data).map (fun l => ⟨l⟩)

/-! ## `destination_folder` (lines 44-56) -/

def MIN_CHECKPOINT_SIZE : Nat := 2 * 1024 ^ 3

/-- `os.path.splitext(filename)[1].lower()`. -/
def extLower (filename : String) : String := ⟨lowerList (splitextList filename.data).2⟩

/-- `destination_folder`: `.pt` → embeddings; otherwise the 2 GiB threshold
chooses models or loras.  File sizes are natural numbers of bytes. -/
def destination_folder (filename : String) (file_size : Nat) : String :=
  if extLower filename = ".pt" then "embeddings"
  else if MIN_CHECKPOINT_SIZE ≤ file_size then "models"
  else "loras"

/-! ## `file_already_exists` (lines 59-63) and the filesystem/network world -/

def FOLDERS : List String := ["embeddings", "loras", "models"]

/-- `os.path.join(folder, filename)` for a relative folder. -/
def joinPath (folder filename : String) : String := folder ++ "/" ++ filename

/-- The observable state the worker touches: the set of existing paths
(relative to the working directory) and the number of HTTP requests issued. -/
structure World where
  fs : List String
  netCalls : Nat
deriving DecidableEq

def file_already_exists (fs : List String) (filename : String) : Bool :=
  FOLDERS.any (fun folder => fs.contains (joinPath folder filename))

/-! ## `download_one` (lines 66-132) -/

def VALID_EXTENSIONS : List String := [".pt", ".safetensors"]

/-- Behaviour of the one `session.get` a call of `download_one` may perform:
a non-2xx response (`raise_for_status` raises `HTTPError`), a timeout while
connecting (before the temp file is opened), a `RequestException`/`OSError`
raised mid-stream after the temp file was created, or a complete body of the
given size. -/
inductive NetResult
  | httpError (code : Nat)
  | connectTimeout
  | streamFault (bytesWritten : Nat)
  | ok (totalBytes : Nat)
deriving DecidableEq

/-- Fault-injection oracle for one worker call: the transfer outcome and
whether the best-effort `os.remove` in the `finally` block succeeds. -/
structure Env where
  net : NetResult
  removeOk : Bool
deriving DecidableEq

/-- `os.path.join(os.getcwd(), filename + ".part")`, relative to cwd. -/
def tmpPath (filename : String) : String := filename ++ ".part"

/-- `download_one`: sanitize (a `ValueError` is caught and yields `False`),
gate the extension, short-circuit on an existing file, then perform the
transfer.  The `finally` block removes a still-existing temp file best-effort;
`os.replace` atomically moves the temp file to its destination. -/
def download_one (env : Env) (w : World) (filename url token : String) :
    Bool × World :=
  match sanitize_filename filename with
  | none => (false, w)
  | some fn =>
    if !(VALID_EXTENSIONS.contains (extLower fn)) then (false, w)
    else if file_already_exists w.fs fn then (true, w)
    else
      let tmp := tmpPath fn
      let w1 : World := { w with netCalls := w.netCalls + 1 }
      match env.net with
      | .httpError _ => (false, w1)
      | .connectTimeout => (false, w1)
      | .streamFault _ =>
          let w2 : World := { w1 with fs := tmp :: w1.fs }
          let w3 : World :=
            if env.removeOk then { w2 with fs := w2.fs.filter (fun p => p != tmp) }
            else w2
          (false, w3)
      | .ok size =>
          let w2 : World := { w1 with fs := tmp :: w1.fs }
          let dest := joinPath (destination_folder fn size) fn
          let w3 : World := { w2 with fs := dest :: w2.fs.filter (fun p => p != tmp) }
          (true, w3)

/-! ## `read_url_file` (lines 135-153) -/

/-- The whitespace class of Python's bare `str.strip()` (ASCII part). -/
def pyIsSpace (c : Char) : Bool :=
  c = ' ' || c = '\t' || c = '\n' || c = '\r' || c.toNat = 11 || c.toNat = 12

def stripWs (l : List Char) : List Char := stripBy pyIsSpace l

/-- The three-character separator `" - "`. -/
def sepChars : List Char := [' ', '-', ' ']

/-- `line.partition(" - ")` combined with the `" - " in line` test: split at
the FIRST occurrence of the separator, `none` when there is none. -/
def splitFirstSep : List Char → Option (List Char × List Char)
  | [] => none
  | c :: rest =>
    if c :: rest.take 2 = sepChars then some ([], rest.drop 2)
    else
      match splitFirstSep rest with
      | none => none
      | some (a, b) => some (c :: a, b)

/-- One iteration of the parsing loop: strip the raw line, skip it when blank
or separator-free, split at the first separator, strip both parts, skip the
entry (with a warning) when either part is empty. -/
def parseLine (raw : String) : Option (String × String) :=
  let line := stripWs raw.data
  match splitFirstSep line with
  | none => none
  | some (a, b) =>
    let filename := stripWs a
    let url := stripWs b
    if filename = [] || url = [] then none
    else some (⟨filename⟩, ⟨url⟩)

def read_url_file (lines : List String) : List (String × String) :=
  lines.filterMap parseLine

/-! ## The retry loop of `main` (lines 189-211) -/

/-- One `(filename, url)` pair. -/
abbrev DLTask := String × String

/-- Terminal state of the retry loop: the `break` on an empty pending list,
or the `for`/`else` branch with the still-failing tasks. -/
inductive FinalState
  | allSucceeded
  | exhaustedRetries (remaining : List DLTask)
deriving DecidableEq

/-- `pending = [pair for pair, ok in results if not ok]` with the per-task
outcomes of one attempt abstracted into `oracle`. -/
def attemptFailures (oracle : DLTask → Nat → Bool) (pending : List DLTask)
    (attempt : Nat) : List DLTask :=
  pending.filter (fun t => !(oracle t attempt))

/-- The `for attempt in range(1, retries + 1)` loop over the remaining
attempt budget. -/
def runFrom (oracle : DLTask → Nat → Bool) :
    Nat → List DLTask → Nat → FinalState
  | 0, pending, _ => .exhaustedRetries pending
  | fuel + 1, pending, attempt =>
    let failures := attemptFailures oracle pending attempt
    if failures.isEmpty then .allSucceeded
    else runFrom oracle fuel failures (attempt + 1)

/-- The whole retry loop started on the full task list at attempt 1. -/
def runMain (oracle : DLTask → Nat → Bool) (tasks : List DLTask)
    (retries : Nat) : FinalState :=
  runFrom oracle retries tasks 1

/-- `sys.exit(1)` in the `else` branch, normal exit otherwise. -/
def exitCode : FinalState → Nat
  | .allSucceeded => 0
  | .exhaustedRetries _ => 1

/-- The filenames printed in the final `for filename, _ in pending` loop. -/
def failureSummary : FinalState → List String
  | .allSucceeded => []
  | .exhaustedRetries remaining => remaining.map (fun t => t.1)

/-- Iterated pending sets: `pendIter oracle pending a k` is the pending list
after running attempts `a, a+1, ..., a+k-1` from `pending` (ignoring the
early `break`). -/
def pendIter (oracle : DLTask → Nat → Bool) (pending : List DLTask)
    (attempt : Nat) : Nat → List DLTask
  | 0 => pending
  | k + 1 => attemptFailures oracle (pendIter oracle pending attempt k) (attempt + k)

/-- The pending list after the first `k` attempts of a run on `tasks`. -/
def pendingAfter (oracle : DLTask → Nat → Bool) (tasks : List DLTask)
    (k : Nat) : List DLTask :=
  pendIter oracle tasks 1 k

/-! ## `main` with the real worker threaded through the world -/

/-- `executor.map(lambda p: (p, download_one(p[0], p[1], token)), pending)`,
sequentialised (the worker's filesystem effects on distinct tasks commute). -/
def runAttemptW (envOf : DLTask → Env) (token : String) :
    List DLTask → World → List (DLTask × Bool) × World
  | [], w => ([], w)
  | t :: rest, w =>
    let r := download_one (envOf t) w t.1 t.2 token
    let rr := runAttemptW envOf token rest r.2
    ((t, r.1) :: rr.1, rr.2)

/-- The retry loop of `main` running the real `download_one`. -/
def mainLoop (envOf : Nat → DLTask → Env) (token : String) :
    Nat → List DLTask → Nat → World → FinalState × World
  | 0, pending, _, w => (.exhaustedRetries pending, w)
  | fuel + 1, pending, attempt, w =>
    let r := runAttemptW (envOf attempt) token pending w
    let failures := (r.1.filter (fun x => !x.2)).map (fun x => x.1)
    if failures.isEmpty then (.allSucceeded, r.2)
    else mainLoop envOf token fuel failures (attempt + 1) r.2

/-- `main` after token acquisition: parse the list, exit 1 on no valid
entries, else run the retry loop; returns the process exit code and the final
world. -/
def mainRun (envOf : Nat → DLTask → Env) (token : String)
    (lines : List String) (retries : Nat) (w : World) : Nat × World :=
  let pairs := read_url_file lines
  if pairs.isEmpty then (1, w)
  else
    let r := mainLoop envOf token retries pairs 1 w
    (exitCode r.1, r.2)

/-! ## `get_session` (lines 10-24) -/

/-- A `requests.Session`, observed through its `Authorization` header. -/
structure Session where
  authHeader : Option String
deriving DecidableEq

/-- The `threading.local()` slot of one worker thread, plus a counter of how
many `requests.Session()` constructions have happened on this thread. -/
structure ThreadLocal where
  session : Option Session
  creations : Nat
deriving DecidableEq

def initThreadLocal : ThreadLocal := { session := none, creations := 0 }

/-- The session built on first call: header set only for a truthy token. -/
def mkSession (token : String) : Session :=
  { authHeader := if token = "" then none else some ("Bearer " ++ token) }

/-- `get_session`: create the thread-local session on first call, return the
stored one afterwards. -/
def get_session (token : String) (tl : ThreadLocal) : Session × ThreadLocal :=
  match tl.session with
  | some s => (s, tl)
  | none =>
    let s := mkSession token
    (s, { session := some s, creations := tl.creations + 1 })

/-- Run a sequence of `get_session` calls on one thread. -/
def applyTokens : List String → ThreadLocal → ThreadLocal
  | [], tl => tl
  | t :: ts, tl => applyTokens ts (get_session t tl).2

/-! ## The three-task retry scenario of spec §8 -/

def taskA : DLTask := ("A.safetensors", "urlA")

def taskB : DLTask := ("B.safetensors", "urlB")

def taskC : DLTask := ("C.safetensors", "urlC")

/-- Per-attempt outcomes of the scenario: A succeeds on attempt 1, B fails on
attempts 1-2 and succeeds from attempt 3 on, C always fails. -/
def scenOracle : DLTask → Nat → Bool := fun t n =>
  if t = taskA then true
  else if t = taskB then decide (3 ≤ n)
  else false

/-! # Theorems -/

/-! ## Worker short-circuit lemmas shared by several claims -/

theorem download_one_invalid_ext (env : Env) (w : World)
    (filename url token fn : String)
    (hs : sanitize_filename filename = some fn)
    (he : extLower fn ∉ VALID_EXTENSIONS) :
    download_one env w filename url token = (false, w) := by
  unfold download_one
  rw [hs]
  simp [he]

theorem download_one_already_exists (env : Env) (w : World)
    (filename url token fn : String)
    (hs : sanitize_filename filename = some fn)
    (he : extLower fn ∈ VALID_EXTENSIONS)
    (hx : file_already_exists w.fs fn = true) :
    download_one env w filename url token = (true, w) := by
  unfold download_one
  rw [hs]
  simp [he, hx]

/-! ## C3: the destination classifier -/

/-- C3: `destination_folder` is a pure function of the lower-cased extension
and the size: a `.pt` extension (case-insensitively, via `.lower()`) gives
`embeddings` at every size; any other extension gives `models` when the size
is at least `2 * 1024 ^ 3` bytes and `loras` below that; and two filenames
with the same lower-cased extension classify identically at every size. -/
theorem destination_folder_classifies (fn gn : String) (size : Nat) :
    (extLower fn = ".pt" → destination_folder fn size = "embeddings") ∧
    (extLower fn ≠ ".pt" →
      (MIN_CHECKPOINT_SIZE ≤ size → destination_folder fn size = "models") ∧
      (size < MIN_CHECKPOINT_SIZE → destination_folder fn size = "loras")) ∧
    (extLower fn = extLower gn →
      destination_folder fn size = destination_folder gn size) := by
  refine ⟨fun h => ?_, fun h => ⟨fun hs => ?_, fun hs => ?_⟩, fun h => ?_⟩
  · simp [destination_folder, h]
  · rw [destination_folder, if_neg h, if_pos hs]
  · rw [destination_folder, if_neg h, if_neg (by omega)]
  · simp only [destination_folder, h]

/-- Witness for C3 at concrete inputs, including both sides of the 2 GiB
boundary and an upper-case `.PT`. -/
theorem destination_folder_classifies_witness :
    destination_folder "x.PT" 5 = "embeddings" ∧
    destination_folder "y.safetensors" (2 * 1024 ^ 3) = "models" ∧
    destination_folder "y.safetensors" 5 = "loras" ∧
    destination_folder "a.SafeTensors" 5 = destination_folder "b.sAFETENSORS" 5 :=
  ⟨(destination_folder_classifies "x.PT" "x.PT" 5).1 (by decide),
   ((destination_folder_classifies "y.safetensors" "y" (2 * 1024 ^ 3)).2.1
      (by decide)).1 (by decide),
   ((destination_folder_classifies "y.safetensors" "y" 5).2.1 (by decide)).2
      (by decide),
   (destination_folder_classifies "a.SafeTensors" "b.sAFETENSORS" 5).2.2
      (by decide)⟩

/-! ## C9: empty input list exits early -/

/-- C9: when the parsed input list has no valid entries, `main` exits with
code 1 and the world is returned untouched: no HTTP request was issued
(`netCalls` unchanged) and no file or temp file was created (`fs` unchanged). -/
theorem empty_input_early_exit (envOf : Nat → DLTask → Env) (token : String)
    (lines : List String) (retries : Nat) (w : World)
    (h : read_url_file lines = []) :
    mainRun envOf token lines retries w = (1, w) := by
  simp [mainRun, h]

/-- Witness for C9: a list holding only a blank line and a separator-free
line exits with code 1 leaving the empty world unchanged. -/
theorem empty_input_early_exit_witness :
    mainRun (fun _ _ => ⟨.ok 0, true⟩) "" ["", "junk line"] 3 ⟨[], 0⟩
      = (1, ⟨[], 0⟩) :=
  empty_input_early_exit _ "" ["", "junk line"] 3 ⟨[], 0⟩ (by decide)

/-! ## C2: parent-directory tokens and `sanitize_filename` -/

/-- C2 counterexample: the raw filename `"../a.pt"` contains the
parent-directory token `".."`, yet `sanitize_filename` succeeds and returns
`"a.pt"`, because the code takes `os.path.basename` first and only then checks
for `".."`. -/
theorem sanitize_dotdot_raw_counterexample :
    hasDotDot ("../a.pt").data = true ∧
    sanitize_filename "../a.pt" = some "a.pt" := by
  exact ⟨by decide, by decide⟩

/-- C2 amended: for every raw filename whose final path segment (the
basename remaining after the directory prefix is stripped) contains `".."`,
`sanitize_filename` fails and never returns a sanitized name. -/
theorem sanitize_dotdot_basename_fails (x : String)
    (h : hasDotDot (basenameList x.data) = true) :
    sanitize_filename x = none := by
  unfold sanitize_filename sanitizeList
  simp [h]

/-- Witness for the amended C2: `"a..b.pt"` has `".."` in its basename and is
rejected. -/
theorem sanitize_dotdot_basename_fails_witness :
    sanitize_filename "a..b.pt" = none :=
  sanitize_dotdot_basename_fails "a..b.pt" (by decide)

/-! ## C1: unsupported extensions are counted as failures by the code -/

set_option maxHeartbeats 1000000

theorem download_one_json (env : Env) (w : World) (url token : String) :
    download_one env w "notes.json" url token = (false, w) :=
  download_one_invalid_ext env w _ url token "notes.json" (by decide) (by decide)

theorem runAttemptW_json (f : DLTask → Env) (w : World) :
    runAttemptW f "" [("notes.json", "http://u")] w
      = ([(("notes.json", "http://u"), false)], w) := by
  simp [runAttemptW, download_one_json]

theorem mainLoop_json (envOf : Nat → DLTask → Env) (w : World) :
    mainLoop envOf "" 3 [("notes.json", "http://u")] 1 w
      = (.exhaustedRetries [("notes.json", "http://u")], w) := by
  simp [mainLoop, runAttemptW_json]

/-- C1 (code-bug evidence): `download_one` prints a SKIP tag for an
unsupported extension such as `.json` but returns `False`, the failure value,
leaving the world untouched; consequently `main` re-queues the task on every
attempt, ends in `ExhaustedRetries` with it, lists it in the final failure
summary and exits with code 1 — the task is never treated as a non-failure
skip. -/
theorem json_task_counted_as_failure :
    (∀ (env : Env) (w : World) (url token : String),
      download_one env w "notes.json" url token = (false, w)) ∧
    (∀ (envOf : Nat → DLTask → Env) (w : World),
      mainLoop envOf "" 3 [("notes.json", "http://u")] 1 w
        = (.exhaustedRetries [("notes.json", "http://u")], w)) ∧
    mainRun (fun _ _ => ⟨.ok 0, true⟩) "" ["notes.json - http://u"] 3 ⟨[], 0⟩
      = (1, ⟨[], 0⟩) ∧
    failureSummary (.exhaustedRetries [("notes.json", "http://u")])
      = ["notes.json"] := by
  refine ⟨download_one_json, mainLoop_json, ?_, rfl⟩
  rw [mainRun]
  rw [show read_url_file ["notes.json - http://u"]
        = [("notes.json", "http://u")] from by decide]
  simp [mainLoop_json]
  rfl

/-! ## C10: thread-local session reuse -/

theorem applyTokens_of_some (ts : List String) (tl : ThreadLocal) (s : Session)
    (h : tl.session = some s) : applyTokens ts tl = tl := by
  induction ts with
  | nil => rfl
  | cons t ts ih =>
    show applyTokens ts (get_session t tl).2 = tl
    rw [show (get_session t tl).2 = tl from by simp [get_session, h]]
    exact ih

/-- C10: per thread, `get_session` constructs a session at most once; any call
on a thread that already stores a session returns exactly that stored session
and leaves the storage unchanged, ignoring its token argument; the
`Authorization` header is the one fixed by the token of the thread's first
call (absent for an empty token), and a different token on a later call does
not change it. -/
theorem get_session_thread_local :
    (∀ (t : String) (tl : ThreadLocal) (s : Session),
      tl.session = some s → get_session t tl = (s, tl)) ∧
    (∀ t1 t2 : String,
      (get_session t2 (get_session t1 initThreadLocal).2).1
        = (get_session t1 initThreadLocal).1 ∧
      (get_session t2 (get_session t1 initThreadLocal).2).2
        = (get_session t1 initThreadLocal).2 ∧
      (get_session t1 initThreadLocal).1.authHeader
        = (if t1 = "" then none else some ("Bearer " ++ t1))) ∧
    (∀ ts : List String, (applyTokens ts initThreadLocal).creations ≤ 1) := by
  have hstored : ∀ (t : String) (tl : ThreadLocal) (s : Session),
      tl.session = some s → get_session t tl = (s, tl) := by
    intro t tl s h
    simp [get_session, h]
  refine ⟨hstored, ?_, ?_⟩
  · intro t1 t2
    have h1 : get_session t1 initThreadLocal
        = (mkSession t1, { session := some (mkSession t1), creations := 1 }) := rfl
    rw [h1]
    exact ⟨congrArg Prod.fst (hstored t2 _ _ rfl),
           congrArg Prod.snd (hstored t2 _ _ rfl), rfl⟩
  · intro ts
    cases ts with
    | nil => exact Nat.zero_le 1
    | cons t ts =>
      show (applyTokens ts (get_session t initThreadLocal).2).creations ≤ 1
      rw [applyTokens_of_some ts (get_session t initThreadLocal).2 (mkSession t) rfl]
      exact Nat.le_refl 1

/-- Witness for C10: with a session for token "a" stored, a later call with
token "b" returns the stored session with the "Bearer a" header untouched. -/
theorem get_session_thread_local_witness :
    get_session "b"
        { session := some { authHeader := some "Bearer a" }, creations := 1 }
      = ({ authHeader := some "Bearer a" },
         { session := some { authHeader := some "Bearer a" }, creations := 1 }) :=
  get_session_thread_local.1 "b"
    { session := some { authHeader := some "Bearer a" }, creations := 1 }
    { authHeader := some "Bearer a" } rfl

/-! ## C5: the retry orchestrator -/

theorem pendIter_shift (oracle : DLTask → Nat → Bool) (pending : List DLTask)
    (a j : Nat) :
    pendIter oracle pending a (j + 1)
      = pendIter oracle (attemptFailures oracle pending a) (a + 1) j := by
  induction j with
  | zero =>
    show attemptFailures oracle (pendIter oracle pending a 0) (a + 0)
        = attemptFailures oracle pending a
    rw [Nat.add_zero]
    rfl
  | succ j ih =>
    show attemptFailures oracle (pendIter oracle pending a (j + 1)) (a + (j + 1))
        = attemptFailures oracle
            (pendIter oracle (attemptFailures oracle pending a) (a + 1) j) (a + 1 + j)
    rw [ih, show a + (j + 1) = a + 1 + j from by omega]

theorem pendingAfter_succ (oracle : DLTask → Nat → Bool) (tasks : List DLTask)
    (k : Nat) :
    pendingAfter oracle tasks (k + 1)
      = (pendingAfter oracle tasks k).filter (fun t => !(oracle t (k + 1))) := by
  show attemptFailures oracle (pendIter oracle tasks 1 k) (1 + k) = _
  rw [Nat.add_comm 1 k]
  rfl

theorem pendingAfter_mono (oracle : DLTask → Nat → Bool) (tasks : List DLTask)
    {k m : Nat} (h : k ≤ m) :
    (pendingAfter oracle tasks m).Sublist (pendingAfter oracle tasks k) := by
  induction m with
  | zero =>
    obtain rfl := Nat.le_zero.mp h
    exact List.Sublist.refl _
  | succ m ih =>
    rcases Nat.eq_or_lt_of_le h with rfl | hlt
    · exact List.Sublist.refl _
    · refine List.Sublist.trans ?_ (ih (Nat.lt_succ_iff.mp hlt))
      rw [pendingAfter_succ]
      exact List.filter_sublist _

theorem runFrom_allSucceeded (oracle : DLTask → Nat → Bool) :
    ∀ (k fuel : Nat) (pending : List DLTask) (a : Nat), k < fuel →
      attemptFailures oracle (pendIter oracle pending a k) (a + k) = [] →
      runFrom oracle fuel pending a = .allSucceeded := by
  intro k
  induction k with
  | zero =>
    intro fuel pending a hf h0
    cases fuel with
    | zero => omega
    | succ f =>
      rw [Nat.add_zero] at h0
      rw [show pendIter oracle pending a 0 = pending from rfl] at h0
      show (if (attemptFailures oracle pending a).isEmpty then FinalState.allSucceeded
            else runFrom oracle f (attemptFailures oracle pending a) (a + 1))
          = FinalState.allSucceeded
      rw [h0]
      rfl
  | succ k ih =>
    intro fuel pending a hf h0
    cases fuel with
    | zero => omega
    | succ f =>
      show (if (attemptFailures oracle pending a).isEmpty then FinalState.allSucceeded
            else runFrom oracle f (attemptFailures oracle pending a) (a + 1))
          = FinalState.allSucceeded
      by_cases hE : (attemptFailures oracle pending a).isEmpty = true
      · rw [if_pos hE]
      · rw [if_neg hE]
        apply ih f _ (a + 1) (by omega)
        rw [← pendIter_shift]
        rw [show a + 1 + k = a + (k + 1) from by omega]
        exact h0

/-- C5: the retry loop of `main` is the §4.5 state machine.  After each
attempt the pending list becomes exactly the tasks that failed in that
attempt, so it shrinks monotonically (sublist) and a task that succeeded at
some attempt never reappears in any later pending set; an attempt within the
budget that produces no failures terminates the run in `AllSucceeded`; and in
the concrete §8 scenario (A succeeds at attempt 1, B fails at attempts 1-2
and succeeds at 3, C always fails, `retries = 3`) the final state is
`ExhaustedRetries([C])`, the exit code is 1, and C's filename is the only one
in the failure summary. -/
theorem orchestrator_state_machine :
    (∀ (oracle : DLTask → Nat → Bool) (tasks : List DLTask) (k : Nat),
      pendingAfter oracle tasks (k + 1)
        = (pendingAfter oracle tasks k).filter (fun t => !(oracle t (k + 1)))) ∧
    (∀ (oracle : DLTask → Nat → Bool) (tasks : List DLTask) (k : Nat),
      (pendingAfter oracle tasks (k + 1)).Sublist (pendingAfter oracle tasks k)) ∧
    (∀ (oracle : DLTask → Nat → Bool) (tasks : List DLTask) (k m : Nat)
        (t : DLTask),
      oracle t (k + 1) = true → k < m → t ∉ pendingAfter oracle tasks m) ∧
    (∀ (oracle : DLTask → Nat → Bool) (tasks : List DLTask) (retries k : Nat),
      k < retries →
      attemptFailures oracle (pendingAfter oracle tasks k) (k + 1) = [] →
      runMain oracle tasks retries = .allSucceeded) ∧
    (runMain scenOracle [taskA, taskB, taskC] 3 = .exhaustedRetries [taskC] ∧
     exitCode (runMain scenOracle [taskA, taskB, taskC] 3) = 1 ∧
     failureSummary (runMain scenOracle [taskA, taskB, taskC] 3)
       = ["C.safetensors"]) := by
  refine ⟨pendingAfter_succ, ?_, ?_, ?_, by decide, by decide, by decide⟩
  · intro oracle tasks k
    rw [pendingAfter_succ]
    exact List.filter_sublist _
  · intro oracle tasks k m t hsucc hkm hmem
    have h1 : t ∈ pendingAfter oracle tasks (k + 1) :=
      (pendingAfter_mono oracle tasks hkm).subset hmem
    rw [pendingAfter_succ] at h1
    have h2 := (List.mem_filter.mp h1).2
    rw [hsucc] at h2
    simp at h2
  · intro oracle tasks retries k hk h0
    apply runFrom_allSucceeded oracle k retries tasks 1 hk
    rw [show (1 : Nat) + k = k + 1 from by omega]
    exact h0

/-- Witness for C5: in the scenario, A (which succeeded at attempt 1) is not
in the pending set after attempt 2; and a run in which every task succeeds at
attempt 1 ends in `AllSucceeded`. -/
theorem orchestrator_state_machine_witness :
    taskA ∉ pendingAfter scenOracle [taskA, taskB, taskC] 2 ∧
    runMain (fun _ _ => true) [taskA] 3 = .allSucceeded :=
  ⟨orchestrator_state_machine.2.2.1 scenOracle [taskA, taskB, taskC] 0 2 taskA
      (by decide) (by decide),
   orchestrator_state_machine.2.2.2.1 (fun _ _ => true) [taskA] 3 0
      (by decide) (by decide)⟩

/-! ## C8: the input-list parser -/

theorem splitFirstSep_eq (l : List Char) :
    ∀ a b, splitFirstSep l = some (a, b) →
      l = a ++ sepChars ++ b ∧ splitFirstSep a = none := by
  induction l with
  | nil => intro a b h; simp [splitFirstSep] at h
  | cons c rest ih =>
    intro a b h
    rw [splitFirstSep] at h
    by_cases hc : c :: rest.take 2 = sepChars
    · rw [if_pos hc] at h
      obtain ⟨rfl, rfl⟩ : [] = a ∧ rest.drop 2 = b := by
        simpa using h
      refine ⟨?_, rfl⟩
      rw [List.nil_append, ← hc]
      show c :: rest = c :: (rest.take 2 ++ rest.drop 2)
      rw [List.take_append_drop]
    · rw [if_neg hc] at h
      cases hr : splitFirstSep rest with
      | none => rw [hr] at h; simp at h
      | some ab =>
        obtain ⟨a', b'⟩ := ab
        rw [hr] at h
        obtain ⟨rfl, rfl⟩ : c :: a' = a ∧ b' = b := by
          simpa using h
        obtain ⟨hrest, hnone⟩ := ih a' b' hr
        constructor
        · rw [List.cons_append, List.cons_append, ← hrest]
        · rw [splitFirstSep]
          have hc' : ¬ (c :: a'.take 2 = sepChars) := by
            intro hEq
            apply hc
            have hlen : 2 ≤ a'.length := by
              have h2 : (c :: a'.take 2).length = sepChars.length :=
                congrArg List.length hEq
              simp [sepChars] at h2
              omega
            have htk : rest.take 2 = a'.take 2 := by
              rw [hrest, List.append_assoc, List.take_append_of_le_length hlen]
            rw [htk]
            exact hEq
          rw [if_neg hc', hnone]

/-- C8: the entry parser splits each stripped line at the FIRST occurrence of
the three-character separator `" - "`: whenever `splitFirstSep` splits a line
into `(a, b)`, the line is literally `a ++ " - " ++ b` and the filename part
`a` contains no further separator (so every later `" - "` stays inside the
URL); a line whose stripped form has no separator — in particular a blank
line — is skipped (`none`), and `read_url_file` is a total filter over the
lines, so such lines never abort the run.  Concretely, a URL containing
`" - "` survives unsplit and a blank and a separator-free line are dropped. -/
theorem parser_first_separator :
    (∀ (l a b : List Char), splitFirstSep l = some (a, b) →
      l = a ++ sepChars ++ b ∧ splitFirstSep a = none) ∧
    (∀ raw : String, splitFirstSep (stripWs raw.data) = none →
      parseLine raw = none) ∧
    parseLine "model.pt - https://x/a - b.bin"
      = some ("model.pt", "https://x/a - b.bin") ∧
    read_url_file ["", "no separator here", "a.pt - http://u"]
      = [("a.pt", "http://u")] := by
  refine ⟨splitFirstSep_eq, ?_, by decide, by decide⟩
  intro raw h
  simp [parseLine, h]

/-- Witness for C8: the general conjuncts applied at concrete lines. -/
theorem parser_first_separator_witness :
    ("x - y").data = "x".data ++ sepChars ++ "y".data ∧
    parseLine "no sep" = none :=
  ⟨(parser_first_separator.1 ("x - y").data "x".data "y".data (by decide)).1,
   parser_first_separator.2.1 "no sep" (by decide)⟩

/-! ## Character-level facts about the sanitizer -/

theorem replChar_not_forbidden (c : Char) : forbiddenChar (replChar c) = false := by
  unfold replChar
  cases h : forbiddenChar c with
  | true => rw [if_pos rfl]; decide
  | false => rw [if_neg (by decide)]; exact h

theorem replChar_id_of_not_forbidden {c : Char} (h : forbiddenChar c = false) :
    replChar c = c := by
  unfold replChar
  rw [if_neg (by simp [h])]

theorem replChar_idem (c : Char) : replChar (replChar c) = replChar c :=
  replChar_id_of_not_forbidden (replChar_not_forbidden c)

theorem replChar_ne_slash (c : Char) : replChar c ≠ '/' := by
  intro h
  have h2 := replChar_not_forbidden c
  rw [h] at h2
  exact absurd h2 (by decide)

theorem replChar_beq_dot (c : Char) : (replChar c == '.') = (c == '.') := by
  unfold replChar
  cases h : forbiddenChar c with
  | true =>
    rw [if_pos rfl]
    cases hc : c == '.' with
    | true =>
      rw [eq_of_beq hc] at h
      exact absurd h (by decide)
    | false => decide
  | false => rw [if_neg (by decide)]

/-! ## Facts about the adjacent-dots test -/

theorem hasDotDot_tail {a : Char} {l : List Char}
    (h : hasDotDot (a :: l) = false) : hasDotDot l = false := by
  cases l with
  | nil => rfl
  | cons b rest =>
    simp only [hasDotDot, Bool.or_eq_false_iff] at h
    exact h.2

theorem hasDotDot_append_elim {p q : List Char}
    (h : hasDotDot (p ++ q) = false) :
    hasDotDot p = false ∧ hasDotDot q = false := by
  induction p with
  | nil => exact ⟨rfl, h⟩
  | cons a t ih =>
    rw [List.cons_append] at h
    obtain ⟨h1, h2⟩ := ih (hasDotDot_tail h)
    refine ⟨?_, h2⟩
    cases t with
    | nil => rfl
    | cons b rest =>
      simp only [List.cons_append, hasDotDot, Bool.or_eq_false_iff] at h
      simp only [hasDotDot, Bool.or_eq_false_iff]
      exact ⟨h.1, h1⟩

theorem hasDotDot_map_repl (l : List Char) :
    hasDotDot (l.map replChar) = hasDotDot l := by
  induction l with
  | nil => rfl
  | cons a t ih =>
    cases t with
    | nil => rfl
    | cons b rest =>
      simp only [List.map_cons] at ih ⊢
      simp only [hasDotDot]
      rw [replChar_beq_dot a, replChar_beq_dot b, ih]

/-! ## Facts about `dropWhile`-based stripping -/

theorem dropWhile_head_not (p : Char → Bool) :
    ∀ (l : List Char) (c : Char) (t : List Char),
      l.dropWhile p = c :: t → p c = false := by
  intro l
  induction l with
  | nil => intro c t h; simp [List.dropWhile] at h
  | cons a l' ih =>
    intro c t h
    cases hp : p a with
    | true =>
      rw [List.dropWhile_cons_of_pos hp] at h
      exact ih c t h
    | false =>
      rw [List.dropWhile_cons_of_neg (by simp [hp])] at h
      cases h
      exact hp

theorem dropWhile_cons_false {p : Char → Bool} {c : Char} (t : List Char)
    (h : p c = false) : (c :: t).dropWhile p = c :: t :=
  List.dropWhile_cons_of_neg (by simp [h])

theorem dropWhile_idem (p : Char → Bool) (l : List Char) :
    (l.dropWhile p).dropWhile p = l.dropWhile p := by
  cases hd : l.dropWhile p with
  | nil => rfl
  | cons c t => exact dropWhile_cons_false t (dropWhile_head_not p l c t hd)

theorem takeWhile_all (p : Char → Bool) (l : List Char)
    (h : ∀ c ∈ l, p c = true) : l.takeWhile p = l := by
  induction l with
  | nil => rfl
  | cons a t ih =>
    rw [List.takeWhile_cons_of_pos (h a (List.mem_cons_self a t))]
    rw [ih (fun c hc => h c (List.mem_cons_of_mem a hc))]

theorem map_eq_self_of (f : Char → Char) (l : List Char)
    (h : ∀ c ∈ l, f c = c) : l.map f = l := by
  induction l with
  | nil => rfl
  | cons a t ih =>
    rw [List.map_cons, h a (List.mem_cons_self a t),
        ih (fun c hc => h c (List.mem_cons_of_mem a hc))]

theorem rstripBy_decomp (p : Char → Bool) (l : List Char) :
    l = rstripBy p l ++ (l.reverse.takeWhile p).reverse := by
  have h2 : l = (l.reverse.takeWhile p ++ l.reverse.dropWhile p).reverse := by
    rw [List.takeWhile_append_dropWhile, List.reverse_reverse]
  conv_lhs => rw [h2]
  rw [List.reverse_append]
  rfl

theorem mem_lstripBy {p : Char → Bool} {l : List Char} {c : Char}
    (h : c ∈ lstripBy p l) : c ∈ l := by
  rw [← List.takeWhile_append_dropWhile p l]
  exact List.mem_append.mpr (Or.inr h)

theorem mem_rstripBy {p : Char → Bool} {l : List Char} {c : Char}
    (h : c ∈ rstripBy p l) : c ∈ l := by
  rw [rstripBy_decomp p l]
  exact List.mem_append.mpr (Or.inl h)

theorem mem_stripBy {p : Char → Bool} {l : List Char} {c : Char}
    (h : c ∈ stripBy p l) : c ∈ l :=
  mem_lstripBy (mem_rstripBy h)

theorem hasDotDot_lstripBy {p : Char → Bool} {l : List Char}
    (h : hasDotDot l = false) : hasDotDot (lstripBy p l) = false := by
  rw [← List.takeWhile_append_dropWhile p l] at h
  exact (hasDotDot_append_elim h).2

theorem hasDotDot_rstripBy {p : Char → Bool} {l : List Char}
    (h : hasDotDot l = false) : hasDotDot (rstripBy p l) = false := by
  rw [rstripBy_decomp p l] at h
  exact (hasDotDot_append_elim h).1

/-! ## Structure of a successful `sanitizeList` run -/

theorem sanitizeList_eq {l y : List Char} (h : sanitizeList l = some y) :
    hasDotDot (basenameList l) = false ∧
    y = stripBy isStripChar ((basenameList l).map replChar) ∧ y ≠ [] := by
  simp only [sanitizeList] at h
  by_cases hdd : hasDotDot (basenameList l) = true
  · rw [if_pos hdd] at h
    exact absurd h (by simp)
  · rw [if_neg hdd] at h
    by_cases ht : stripBy isStripChar ((basenameList l).map replChar) = []
    · rw [if_pos ht] at h
      exact absurd h (by simp)
    · rw [if_neg ht] at h
      have hy : stripBy isStripChar ((basenameList l).map replChar) = y :=
        Option.some.inj h
      refine ⟨by simpa using hdd, hy.symm, ?_⟩
      rw [← hy]
      exact ht

theorem sanitizeList_mem_repl {l y : List Char} (h : sanitizeList l = some y) :
    ∀ c ∈ y, ∃ c', c = replChar c' := by
  obtain ⟨-, hy, -⟩ := sanitizeList_eq h
  intro c hc
  rw [hy] at hc
  obtain ⟨c', -, hcc⟩ := List.mem_map.mp (mem_stripBy hc)
  exact ⟨c', hcc.symm⟩

theorem sanitizeList_no_slash {l y : List Char} (h : sanitizeList l = some y) :
    ∀ c ∈ y, c ≠ '/' := by
  intro c hc
  obtain ⟨c', rfl⟩ := sanitizeList_mem_repl h c hc
  exact replChar_ne_slash c'

/-- A successful sanitized name is a fixed point of the whole pipeline. -/
theorem sanitizeList_idem (l y : List Char) (h : sanitizeList l = some y) :
    sanitizeList y = some y := by
  obtain ⟨hdd, hy, hne⟩ := sanitizeList_eq h
  have hmem := sanitizeList_mem_repl h
  -- the basename of `y` is `y` itself: it contains no slash
  have hbase : basenameList y = y := by
    unfold basenameList
    rw [takeWhile_all _ y.reverse (fun c hc => by
      have hcy : c ∈ y := List.mem_reverse.mp hc
      simp [sanitizeList_no_slash h c hcy])]
    exact List.reverse_reverse y
  -- `y` still has no adjacent dots
  have hdd_y : hasDotDot y = false := by
    rw [hy]
    exact hasDotDot_rstripBy (hasDotDot_lstripBy (by rw [hasDotDot_map_repl]; exact hdd))
  -- the replacement pass is the identity on `y`
  have hmap : y.map replChar = y :=
    map_eq_self_of _ _ (fun c hc => by
      obtain ⟨c', rfl⟩ := hmem c hc
      exact replChar_idem c')
  -- the strip pass is the identity on `y`
  have hy' : y
      = rstripBy isStripChar (lstripBy isStripChar ((basenameList l).map replChar)) :=
    hy
  have hlstrip : lstripBy isStripChar y = y := by
    cases hys : y with
    | nil => rfl
    | cons c t =>
      have hz := rstripBy_decomp isStripChar
        (lstripBy isStripChar ((basenameList l).map replChar))
      rw [← hy', hys, List.cons_append] at hz
      exact dropWhile_cons_false t (dropWhile_head_not isStripChar _ c _ hz)
  have hrstrip : rstripBy isStripChar y = y := by
    have hyr : y.reverse
        = (lstripBy isStripChar ((basenameList l).map replChar)).reverse.dropWhile
            isStripChar := by
      rw [hy']
      exact List.reverse_reverse _
    show (y.reverse.dropWhile isStripChar).reverse = y
    rw [hyr, dropWhile_idem, ← hyr, List.reverse_reverse]
  -- assemble the run of `sanitizeList` on `y`
  simp only [sanitizeList, hbase, hdd_y, hmap]
  rw [if_neg (by simp)]
  show (if stripBy isStripChar y = [] then none else some (stripBy isStripChar y))
      = some y
  rw [show stripBy isStripChar y = y from by
    unfold stripBy
    rw [hlstrip, hrstrip]]
  rw [if_neg hne]

/-! ## C4: idempotence of `sanitize_filename` -/

theorem sanitize_filename_some {s fn : String}
    (h : sanitize_filename s = some fn) : sanitizeList s.data = some fn.data := by
  unfold sanitize_filename at h
  cases hl : sanitizeList s.data with
  | none => rw [hl] at h; exact absurd h (by simp)
  | some l =>
    rw [hl] at h
    obtain rfl : (⟨l⟩ : String) = fn := by simpa using h
    rfl

/-- C4: `sanitize_filename` is idempotent — whenever it succeeds on `x` with
result `y`, running it again on `y` succeeds and returns `y` itself. -/
theorem sanitize_idempotent (x y : String) (h : sanitize_filename x = some y) :
    sanitize_filename y = some y := by
  have h2 := sanitizeList_idem x.data y.data (sanitize_filename_some h)
  unfold sanitize_filename
  rw [h2]
  rfl

/-- Witness for C4: `"dir/na?me.pt"` sanitizes to `"na_me.pt"`, and
sanitizing that again returns it unchanged. -/
theorem sanitize_idempotent_witness :
    sanitize_filename "na_me.pt" = some "na_me.pt" :=
  sanitize_idempotent "dir/na?me.pt" "na_me.pt" (by decide)

/-! ## C7: an existing file short-circuits the download -/

/-- C7: for a task whose filename sanitizes successfully to a name with an
accepted extension, if a file of exactly that sanitized name already exists
in any of the three destination folders, the worker returns success and the
world is unchanged — in particular `netCalls` is unchanged, so no HTTP
request is performed. -/
theorem existing_file_short_circuits (env : Env) (w : World)
    (filename url token fn : String)
    (hs : sanitize_filename filename = some fn)
    (he : extLower fn ∈ VALID_EXTENSIONS)
    (hx : file_already_exists w.fs fn = true) :
    download_one env w filename url token = (true, w) ∧
    (download_one env w filename url token).2.netCalls = w.netCalls := by
  have h := download_one_already_exists env w filename url token fn hs he hx
  exact ⟨h, by rw [h]⟩

/-- Witness for C7: with `"loras/a.safetensors"` present, the worker
returns success without touching the world. -/
theorem existing_file_short_circuits_witness :
    download_one ⟨.ok 7, true⟩ ⟨["loras/a.safetensors"], 0⟩ "a.safetensors" "u" "t"
      = (true, ⟨["loras/a.safetensors"], 0⟩) :=
  (existing_file_short_circuits ⟨.ok 7, true⟩ ⟨["loras/a.safetensors"], 0⟩
    "a.safetensors" "u" "t" "a.safetensors" (by decide) (by decide) (by decide)).1

/-! ## C6: mid-stream faults leave no destination file and clean the temp -/

theorem not_exists_elim {fs : List String} {fn : String}
    (hx : file_already_exists fs fn = false) :
    ∀ folder ∈ FOLDERS, joinPath folder fn ∉ fs := by
  intro folder hf hmem
  simp only [file_already_exists, List.any_eq_false] at hx
  exact hx folder hf (List.elem_eq_true_of_mem hmem)

theorem sanitize_filename_no_slash {s fn : String}
    (h : sanitize_filename s = some fn) : ∀ c ∈ fn.data, c ≠ '/' :=
  sanitizeList_no_slash (sanitize_filename_some h)

theorem joinPath_ne_tmpPath {fn : String} (folder : String)
    (hfn : ∀ c ∈ fn.data, c ≠ '/') : joinPath folder fn ≠ tmpPath fn := by
  intro h
  have hmem : '/' ∈ (joinPath folder fn).data := by
    rw [show (joinPath folder fn).data = folder.data ++ ['/'] ++ fn.data from rfl]
    exact List.mem_append.mpr (Or.inl (List.mem_append.mpr (Or.inr (by decide))))
  have hnot : '/' ∉ (tmpPath fn).data := by
    rw [show (tmpPath fn).data = fn.data ++ (".part").data from rfl]
    intro hm
    rcases List.mem_append.mp hm with h1 | h2
    · exact hfn '/' h1 rfl
    · exact absurd h2 (by decide)
  rw [h] at hmem
  exact hnot hmem

theorem destination_folder_mem (fn : String) (size : Nat) :
    destination_folder fn size ∈ FOLDERS := by
  unfold destination_folder
  split_ifs <;> decide

/-- C6: if a transport or I/O fault hits mid-stream (after the temp file was
created), the worker returns the failure value; every possible destination
path (the classifier always picks one of the three folders, and none of the
three holds the file afterwards) is absent; and when the best-effort
`os.remove` succeeds the temp file is gone as well — while a failing remove
leaves the result `false` all the same, never masking the original error. -/
theorem stream_fault_cleanup (env : Env) (w : World)
    (filename url token fn : String) (k : Nat)
    (hs : sanitize_filename filename = some fn)
    (he : extLower fn ∈ VALID_EXTENSIONS)
    (hx : file_already_exists w.fs fn = false)
    (hn : env.net = .streamFault k) :
    (download_one env w filename url token).1 = false ∧
    (∀ size : Nat, destination_folder fn size ∈ FOLDERS) ∧
    (∀ folder ∈ FOLDERS,
      joinPath folder fn ∉ (download_one env w filename url token).2.fs) ∧
    (env.removeOk = true →
      tmpPath fn ∉ (download_one env w filename url token).2.fs) := by
  have hslash := sanitize_filename_no_slash hs
  by_cases hro : env.removeOk = true
  · have hr : download_one env w filename url token
        = (false, { fs := w.fs.filter (fun p => p != tmpPath fn),
                    netCalls := w.netCalls + 1 }) := by
      unfold download_one
      rw [hs]
      simp [he, hx, hn, hro]
    rw [hr]
    refine ⟨rfl, destination_folder_mem fn, ?_, ?_⟩
    · intro folder hf hmem
      exact not_exists_elim hx folder hf (List.mem_of_mem_filter hmem)
    · intro _ hmem
      have h2 := List.of_mem_filter hmem
      simp at h2
  · have hr : download_one env w filename url token
        = (false, { fs := tmpPath fn :: w.fs, netCalls := w.netCalls + 1 }) := by
      unfold download_one
      rw [hs]
      simp [he, hx, hn, hro]
    rw [hr]
    refine ⟨rfl, destination_folder_mem fn, ?_, ?_⟩
    · intro folder hf hmem
      rcases List.mem_cons.mp hmem with h1 | h2
      · exact joinPath_ne_tmpPath folder hslash h1
      · exact not_exists_elim hx folder hf h2
    · intro hcontra
      exact absurd hcontra hro

/-- Witness for C6: a mid-stream fault on `"a.safetensors"` over the empty
filesystem returns failure, leaves no `"loras/a.safetensors"` and no
`"a.safetensors.part"` behind. -/
theorem stream_fault_cleanup_witness :
    (download_one ⟨.streamFault 5, true⟩ ⟨[], 0⟩ "a.safetensors" "u" "t").1
      = false ∧
    joinPath "loras" "a.safetensors"
      ∉ (download_one ⟨.streamFault 5, true⟩ ⟨[], 0⟩ "a.safetensors" "u" "t").2.fs ∧
    tmpPath "a.safetensors"
      ∉ (download_one ⟨.streamFault 5, true⟩ ⟨[], 0⟩ "a.safetensors" "u" "t").2.fs := by
  have h := stream_fault_cleanup ⟨.streamFault 5, true⟩ ⟨[], 0⟩
    "a.safetensors" "u" "t" "a.safetensors" 5 (by decide) (by decide) (by decide) rfl
  exact ⟨h.1, h.2.2.1 "loras" (by decide), h.2.2.2 rfl⟩

end Civit
